import Mathlib

/-
Verification of the natural-language specification of GP-Spectra
(src/code/gpspec.py) against a shallow embedding of that code.

Modelling conventions:
* Floating point values are modelled as exact rationals (ℚ); numpy float
  arrays become `List ℚ` or functions out of `Fin`.
* numpy / Python operations that can raise (out-of-range indexing,
  `np.dot` on misaligned shapes, `os.makedirs` on an existing directory)
  are modelled with `Option`: `none` is the raised exception.
* External collaborators that gpspec.py merely calls (the `Sed` resampler,
  `BandpassDict.magListForSed`, the sklearn PCA decomposition) are passed
  in as opaque function parameters, or characterised by their documented
  postconditions in the hypotheses of a theorem.
-/

namespace GPSpec

/-! ## pcaUtils.scaleSpectrum (gpspec.py lines 47-64)

    norm = np.sum(sedFlux); normSpec = sedFlux/norm  (elementwise). -/

def scaleSpectrum (sedFlux : List ℚ) : List ℚ :=
  sedFlux.map (fun x => x / sedFlux.sum)

/-- Sum of an elementwise division: helper shared by several claims. -/
theorem sum_map_div (l : List ℚ) (c : ℚ) :
    (l.map (fun x => x / c)).sum = l.sum / c := by
  induction l with
  | nil => simp
  | cons a as ih => simp [ih, add_div]

/-- Sum of an elementwise left multiplication: helper shared by several claims. -/
theorem sum_map_mul_left (l : List ℚ) (c : ℚ) :
    (l.map (fun x => c * x)).sum = c * l.sum := by
  induction l with
  | nil => simp
  | cons a as ih => simp [ih, mul_add]

/-- The normalized flux returned by `scaleSpectrum` sums to 1 when the
    input sum is nonzero: helper shared by several claims. -/
theorem sum_scaleSpectrum (flux : List ℚ) (h : flux.sum ≠ 0) :
    (scaleSpectrum flux).sum = 1 := by
  unfold scaleSpectrum
  rw [sum_map_div, div_self h]

/-- C7: for every flux vector with nonzero sum, `scaleSpectrum(flux)` is
    `flux` divided elementwise by `sum(flux)`, and the result sums to 1
    (exactly, over exact arithmetic). -/
theorem scaleSpectrum_div_and_sums_to_one (flux : List ℚ) (h : flux.sum ≠ 0) :
    scaleSpectrum flux = flux.map (fun x => x / flux.sum) ∧
      (scaleSpectrum flux).sum = 1 :=
  ⟨rfl, sum_scaleSpectrum flux h⟩

/-- C7 witness: concrete instance at flux = [1, 3]. -/
theorem scaleSpectrum_div_and_sums_to_one_witness :
    ([(1 : ℚ), 3].sum ≠ 0) ∧
      (scaleSpectrum [(1 : ℚ), 3] = [(1 : ℚ), 3].map (fun x => x / [(1 : ℚ), 3].sum) ∧
        (scaleSpectrum [(1 : ℚ), 3]).sum = 1) :=
  ⟨by norm_num, scaleSpectrum_div_and_sums_to_one [(1 : ℚ), 3] (by norm_num)⟩

/-- C10: normalization is scale invariant (multiplying the flux by a
    nonzero constant does not change the normalized spectrum) and
    idempotent. -/
theorem scaleSpectrum_scale_invariant_idempotent (flux : List ℚ) (c : ℚ)
    (h : flux.sum ≠ 0) (hc : c ≠ 0)
    (h2 : (flux.map (fun x => c * x)).sum ≠ 0) :
    scaleSpectrum (flux.map (fun x => c * x)) = scaleSpectrum flux ∧
      scaleSpectrum (scaleSpectrum flux) = scaleSpectrum flux := by
  constructor
  · unfold scaleSpectrum
    rw [sum_map_mul_left, List.map_map]
    apply List.map_congr_left
    intro a _
    simp only [Function.comp_apply]
    rw [mul_div_mul_left a flux.sum hc]
  · unfold scaleSpectrum
    conv_lhs => rw [show (flux.map (fun x => x / flux.sum)).sum = 1 from
      sum_scaleSpectrum flux h]
    simp

/-- C10 witness: concrete instance at flux = [1, 3], c = 2. -/
theorem scaleSpectrum_scale_invariant_idempotent_witness :
    ([(1 : ℚ), 3].sum ≠ 0) ∧ ((2 : ℚ) ≠ 0) ∧
      (scaleSpectrum ([(1 : ℚ), 3].map (fun x => 2 * x)) = scaleSpectrum [(1 : ℚ), 3] ∧
        scaleSpectrum (scaleSpectrum [(1 : ℚ), 3]) = scaleSpectrum [(1 : ℚ), 3]) :=
  ⟨by norm_num, by norm_num,
    scaleSpectrum_scale_invariant_idempotent [(1 : ℚ), 3] 2 (by norm_num) (by norm_num)
      (by norm_num)⟩

/-! ## pcaSED fitted state and reconstruct_spectra (gpspec.py lines 191-221)

    After `specPCA` runs, the instance holds `mean_spec` (sklearn `mean_`),
    `eigenspectra` (sklearn `components_`, an `n × w` array) and
    `projected` (sklearn `transform(scaled_fluxes)`, an `m × n` array).
    `reconstruct_spectra` computes
      `self.mean_spec + np.dot(self.projected[:, :num_comps], self.eigenspectra)`.
    Note that `eigenspectra` is NOT sliced: `np.dot` is only defined when the
    column count of `projected[:, :num_comps]` equals the row count `n` of
    `eigenspectra`, and raises ValueError otherwise; we model the raise as
    `none`. -/

structure FittedModel (m n w : ℕ) where
  mean_spec : Fin w → ℚ
  eigenspectra : Fin n → Fin w → ℚ
  projected : Fin m → Fin n → ℚ

/-- Number of columns of the Python slice `a[:, :c]` of an array with `len`
    columns: nonnegative stops are clamped to `len`, negative stops count
    from the end (clamped at 0). -/
def sliceStop (len : ℕ) (c : ℤ) : ℕ :=
  if 0 ≤ c then min c.toNat len else len - min (-c).toNat len

/-- `pcaSED.reconstruct_spectra` (gpspec.py lines 203-221).  The dot product
    `np.dot(projected[:, :num_comps], eigenspectra)` is defined only when the
    sliced width equals `n`; in that case the slice is all of `projected` and
    the result row `i` is `mean_spec + Σ_k projected[i][k] * eigenspectra[k]`.
    Otherwise numpy raises ValueError, modelled as `none`. -/
def reconstruct_spectra {m n w : ℕ} (M : FittedModel m n w) (num_comps : ℤ) :
    Option (Fin m → Fin w → ℚ) :=
  if sliceStop n num_comps = n then
    some (fun i j => M.mean_spec j + ∑ k, M.projected i k * M.eigenspectra k j)
  else none

/-- sklearn `PCA.mean_`: the componentwise mean of the input rows. -/
def sklMean {m w : ℕ} (X : Fin m → Fin w → ℚ) : Fin w → ℚ :=
  fun j => (∑ i, X i j) / m

/-- sklearn `PCA.transform`: project each mean-centered row onto the
    components, `(X - mean_) @ components_.T`. -/
def sklTransform {m n w : ℕ} (X : Fin m → Fin w → ℚ) (mean : Fin w → ℚ)
    (V : Fin n → Fin w → ℚ) : Fin m → Fin n → ℚ :=
  fun i k => ∑ j, (X i j - mean j) * V k j

/-- The scaled fluxes of the two-spectrum example used for concrete fitted
    models below (each row sums to 1). -/
def X1 : Fin 2 → Fin 4 → ℚ :=
  ![![7/20, 7/20, 3/20, 3/20], ![3/20, 3/20, 7/20, 7/20]]

def exMean : Fin 4 → ℚ := ![1/4, 1/4, 1/4, 1/4]

def exV0 : Fin 4 → ℚ := ![1/2, 1/2, -(1/2), -(1/2)]

def exV1 : Fin 4 → ℚ := ![1/2, -(1/2), 1/2, -(1/2)]

/-- A one-component fitted model for `X1` (mean, orthonormal component,
    transform coefficients). -/
def exM1 : FittedModel 2 1 4 := ⟨exMean, ![exV0], ![![1/5], ![-(1/5)]]⟩

/-- A two-component fitted model for `X1` (mean, orthonormal components,
    transform coefficients; the second component carries zero variance). -/
def exM2 : FittedModel 2 2 4 := ⟨exMean, ![exV0, exV1], ![![1/5, 0], ![-(1/5), 0]]⟩

/-- C4: for a model fitted from normalized spectra (mean is the row mean,
    coefficients are the sklearn transform, components are orthonormal and
    span the centered rows — the documented postconditions of the sklearn
    eigen-decomposition), reconstructing with the full number of components
    recovers every original normalized input flux vector exactly. -/
theorem reconstruct_full_rank_recovers {m n w : ℕ} (X : Fin m → Fin w → ℚ)
    (M : FittedModel m n w)
    (hnorm : ∀ i, (∑ j, X i j) = 1)
    (hmean : M.mean_spec = sklMean X)
    (hproj : M.projected = sklTransform X M.mean_spec M.eigenspectra)
    (horth : ∀ k l, (∑ j, M.eigenspectra k j * M.eigenspectra l j) =
      if k = l then 1 else 0)
    (hspan : ∀ i, ∃ c : Fin n → ℚ, ∀ j,
      X i j - M.mean_spec j = ∑ k, c k * M.eigenspectra k j) :
    reconstruct_spectra M (n : ℤ) = some X := by
  have hstop : sliceStop n (n : ℤ) = n := by simp [sliceStop]
  unfold reconstruct_spectra
  rw [if_pos hstop]
  congr 1
  funext i j
  obtain ⟨c, hc⟩ := hspan i
  have hkey : ∀ k, M.projected i k = c k := by
    intro k
    rw [hproj]
    show (∑ jj, (X i jj - M.mean_spec jj) * M.eigenspectra k jj) = c k
    calc (∑ jj, (X i jj - M.mean_spec jj) * M.eigenspectra k jj)
        = ∑ jj, (∑ l, c l * M.eigenspectra l jj) * M.eigenspectra k jj :=
          Finset.sum_congr rfl (fun jj _ => by rw [hc jj])
      _ = ∑ jj, ∑ l, c l * (M.eigenspectra l jj * M.eigenspectra k jj) :=
          Finset.sum_congr rfl (fun jj _ => by
            rw [Finset.sum_mul]
            exact Finset.sum_congr rfl (fun l _ => by ring))
      _ = ∑ l, ∑ jj, c l * (M.eigenspectra l jj * M.eigenspectra k jj) :=
          Finset.sum_comm
      _ = ∑ l, c l * ∑ jj, M.eigenspectra l jj * M.eigenspectra k jj :=
          Finset.sum_congr rfl (fun l _ => (Finset.mul_sum _ _ _).symm)
      _ = ∑ l, c l * (if l = k then 1 else 0) :=
          Finset.sum_congr rfl (fun l _ => by rw [horth l k])
      _ = c k := by simp
  simp only [hkey]
  rw [← hc j]
  ring

/-- C4 witness: the concrete one-component model `exM1` fitted to the
    normalized rows `X1` reconstructs them exactly at full rank. -/
theorem reconstruct_full_rank_recovers_witness :
    (∀ i, (∑ j, X1 i j) = 1) ∧ reconstruct_spectra exM1 (1 : ℤ) = some X1 :=
  ⟨by intro i; fin_cases i <;> simp [X1, Fin.sum_univ_four] <;> norm_num,
    reconstruct_full_rank_recovers X1 exM1
      (by intro i; fin_cases i <;> simp [X1, Fin.sum_univ_four] <;> norm_num)
      (by
        funext j
        fin_cases j <;>
          simp [exM1, exMean, sklMean, X1, Fin.sum_univ_two] <;> norm_num)
      (by
        funext i k
        fin_cases i <;> fin_cases k <;>
          simp [exM1, exMean, exV0, sklTransform, X1, Fin.sum_univ_four] <;>
          norm_num)
      (by
        intro k l
        fin_cases k <;> fin_cases l <;>
          simp [exM1, exV0, Fin.sum_univ_four] <;> norm_num)
      (by
        intro i
        fin_cases i
        · exact ⟨fun _ => (1 : ℚ)/5, by
            intro j
            fin_cases j <;>
              simp [X1, exM1, exMean, exV0, Fin.sum_univ_one] <;> norm_num⟩
        · exact ⟨fun _ => -((1 : ℚ)/5), by
            intro j
            fin_cases j <;>
              simp [X1, exM1, exMean, exV0, Fin.sum_univ_one] <;> norm_num⟩)⟩

/-- C1: evaluation of the code at the failing input.  `exM2` is a genuinely
    fitted model (orthonormal components, transform coefficients, row mean),
    yet asking for 1 of its 2 components makes `reconstruct_spectra` raise
    (np.dot of shapes (2,1) and (2,4)), instead of returning
    `mean + coeff[0] * eigenspectra[0]` as the claim and the docstring of
    `reconstruct_spectra` state. -/
theorem reconstruct_truncation_raises :
    (∀ k l, (∑ j, exM2.eigenspectra k j * exM2.eigenspectra l j) =
      if k = l then 1 else 0) ∧
      exM2.projected = sklTransform X1 exM2.mean_spec exM2.eigenspectra ∧
      exM2.mean_spec = sklMean X1 ∧
      reconstruct_spectra exM2 1 = none := by
  refine ⟨?_, ?_, ?_, rfl⟩
  · intro k l
    fin_cases k <;> fin_cases l <;>
      simp [exM2, exV0, exV1, Fin.sum_univ_four] <;> norm_num
  · funext i k
    fin_cases i <;> fin_cases k <;>
      simp [exM2, exMean, exV0, exV1, sklTransform, X1, Fin.sum_univ_four] <;>
      norm_num
  · funext j
    fin_cases j <;>
      simp [exM2, exMean, sklMean, X1, Fin.sum_univ_two] <;> norm_num

/-- C3 counterexample: requesting more components than were fitted does NOT
    raise: on the fitted model `exM2` with 2 eigenspectra,
    `reconstruct_spectra 3` returns normally (the count is silently clamped
    to the full reconstruction). -/
theorem reconstruct_overcount_counterexample :
    reconstruct_spectra exM2 3 = reconstruct_spectra exM2 2 ∧
      (reconstruct_spectra exM2 3).isSome = true := ⟨rfl, rfl⟩

/-- C3 amended: `reconstruct_spectra` with `numComponents` strictly greater
    than the number of eigenspectra silently clamps the count, returning the
    full-components reconstruction with no error; `numComponents < 0` (with
    at least one eigenspectrum) raises a dimension-mismatch error. -/
theorem reconstruct_clamps_or_raises {m n w : ℕ} (M : FittedModel m n w)
    (c : ℤ) :
    ((n : ℤ) < c → reconstruct_spectra M c = reconstruct_spectra M (n : ℤ) ∧
        (reconstruct_spectra M c).isSome = true) ∧
      (c < 0 → 1 ≤ n → reconstruct_spectra M c = none) := by
  constructor
  · intro hlt
    have h0 : 0 ≤ c := le_of_lt (lt_of_le_of_lt (Int.ofNat_nonneg n) hlt)
    have hstop : sliceStop n c = n := by
      unfold sliceStop
      rw [if_pos h0]
      omega
    have hstopn : sliceStop n (n : ℤ) = n := by simp [sliceStop]
    unfold reconstruct_spectra
    rw [if_pos hstop, if_pos hstopn]
    exact ⟨rfl, rfl⟩
  · intro hneg hn
    have hstop : sliceStop n c ≠ n := by
      unfold sliceStop
      rw [if_neg (by omega)]
      omega
    unfold reconstruct_spectra
    rw [if_neg hstop]

/-- C3 amended witness: concrete instances of both branches on `exM2`. -/
theorem reconstruct_clamps_or_raises_witness :
    (reconstruct_spectra exM2 3 = reconstruct_spectra exM2 ((2 : ℕ) : ℤ) ∧
        (reconstruct_spectra exM2 3).isSome = true) ∧
      reconstruct_spectra exM2 (-1) = none :=
  ⟨(reconstruct_clamps_or_raises exM2 3).1 (by decide),
    (reconstruct_clamps_or_raises exM2 (-1)).2 (by decide) (by decide)⟩

/-! ## Spectra, pcaUtils.loadSpectra (gpspec.py lines 27-45) and
    pcaSED.specPCA (gpspec.py lines 132-201) -/

/-- An `Sed` instance as used by gpspec.py: a named flux-versus-wavelength
    curve. -/
structure Spectrum where
  name : String
  wavelen : List ℚ
  flambda : List ℚ

/-- One file seen by `loadSpectra` during the `os.walk`: either it parses to
    a `Spectrum` (`parsed = some s`) or reading raises and the file is
    skipped (`parsed = none`); `firstFluxNaN` models
    `math.isnan(spec.flambda[0])`. -/
structure RawFile where
  name : String
  parsed : Option Spectrum
  firstFluxNaN : Bool

/-- `pcaUtils.loadSpectra`: keep every file that parses and whose first flux
    value is not NaN; everything else is silently skipped. -/
def loadSpectra (files : List RawFile) : List Spectrum :=
  files.filterMap (fun f =>
    f.parsed.bind (fun s => if f.firstFluxNaN then none else some s))

/-- `np.where(cond)[0]` over a flux/wavelength array: the list of indices,
    in increasing order, at which the condition holds. -/
def npWhere (p : ℚ → Bool) : List ℚ → List ℕ
  | [] => []
  | a :: as => (if p a then [0] else []) ++ (npWhere p as).map (· + 1)

/-- The wavelength window restriction of `specPCA` (gpspec.py lines
    157-161):
      min_wave_x = np.where(wavelen >= minWavelen)[0][0]
      max_wave_x = np.where(wavelen <= maxWavelen)[0][-1]
      wavelen_set = wavelen[min_wave_x : max_wave_x + 1]
    Indexing an empty index array raises IndexError, modelled as `none`. -/
def wavelenSet (wavelen : List ℚ) (minWavelen maxWavelen : ℚ) :
    Option (List ℚ) := do
  let min_wave_x ← (npWhere (fun w => minWavelen ≤ w) wavelen).head?
  let max_wave_x ← (npWhere (fun w => w ≤ maxWavelen) wavelen).getLast?
  pure ((wavelen.drop min_wave_x).take (max_wave_x + 1 - min_wave_x))

/-- The attributes sklearn's `PCA` object exposes after
    `fit(scaled_fluxes)` plus the result of `transform(scaled_fluxes)`
    (gpspec.py lines 191-196); the decomposition itself is external. -/
structure PCAFitResult where
  mean_ : List ℚ
  components_ : List (List ℚ)
  transformed : List (List ℚ)

/-- The colors computed inside `specPCA` (gpspec.py lines 180-201):
    transpose the magnitude table, difference adjacent filter rows
    `full_mags_T[i] - full_mags_T[i+1]`, and transpose back so each row
    again belongs to one spectrum. -/
def specPCAcolors (full_mags : List (List ℚ)) : List (List ℚ) :=
  (((List.range (full_mags.transpose.length - 1)).map
    (fun color_num =>
      List.zipWith (fun a b => a - b) (full_mags.transpose.getD color_num [])
        (full_mags.transpose.getD (color_num + 1) []))).transpose)

/-- The instance state `specPCA` leaves behind. -/
structure SpecPCAState where
  wavelengths : List ℚ
  spec_names : List String
  scaled_fluxes : List (List ℚ)
  mean_spec : List ℚ
  eigenspectra : List (List ℚ)
  projected : List (List ℚ)
  mags : List (List ℚ)
  colors : List (List ℚ)

/-- `pcaSED.specPCA` (gpspec.py lines 132-201).  `resample` stands for the
    external `Sed.resampleSED` (applied to a spectrum and the target grid),
    `magList` for `bandpass_dict.magListForSed` (applied to the spectrum
    before resampling, as in the source), and `pcaFit` for the external
    sklearn decomposition.  Accessing `spec_list_orig[0]` of an empty
    corpus raises IndexError, modelled as `none`. -/
def specPCA (resample : Spectrum → List ℚ → List ℚ)
    (magList : Spectrum → List ℚ) (pcaFit : List (List ℚ) → PCAFitResult)
    (spec_list_orig : List Spectrum) (minWavelen maxWavelen : ℚ) :
    Option SpecPCAState := do
  let s0 ← spec_list_orig.head?
  let wavelen_set ← wavelenSet s0.wavelen minWavelen maxWavelen
  let full_mags := spec_list_orig.map magList
  let scaled_fluxes :=
    spec_list_orig.map (fun spec => scaleSpectrum (resample spec wavelen_set))
  let r := pcaFit scaled_fluxes
  pure
    { wavelengths := wavelen_set
      spec_names := spec_list_orig.map Spectrum.name
      scaled_fluxes := scaled_fluxes
      mean_spec := r.mean_
      eigenspectra := r.components_
      projected := r.transformed
      mags := full_mags
      colors := specPCAcolors full_mags }

/-- C6: an empty directory loads to an empty spectrum list, and fitting
    with zero input spectra raises (IndexError at `spec_list_orig[0]`,
    modelled as `none`) for every choice of the external collaborators:
    no model with degenerate fields is ever produced. -/
theorem specPCA_empty_corpus (resample : Spectrum → List ℚ → List ℚ)
    (magList : Spectrum → List ℚ) (pcaFit : List (List ℚ) → PCAFitResult)
    (minWavelen maxWavelen : ℚ) :
    loadSpectra [] = [] ∧
      specPCA resample magList pcaFit (loadSpectra []) minWavelen maxWavelen
        = none :=
  ⟨rfl, rfl⟩

/-! ## C8: the retained wavelength grid is the in-window sub-sequence -/

/-- Helper: `npWhere` is empty exactly when no element satisfies the
    predicate. -/
theorem npWhere_eq_nil (p : ℚ → Bool) (l : List ℚ) :
    npWhere p l = [] ↔ ∀ v ∈ l, ¬ p v = true := by
  induction l with
  | nil => simp [npWhere]
  | cons a as ih => by_cases h : p a <;> simp [npWhere, h, ih]

/-- Helper: unfolding `npWhere` on a cons whose head satisfies `p`. -/
theorem npWhere_cons_pos (p : ℚ → Bool) (a : ℚ) (as : List ℚ)
    (h : p a = true) :
    npWhere p (a :: as) = 0 :: (npWhere p as).map (· + 1) := by
  rw [npWhere, h]
  rfl

/-- Helper: unfolding `npWhere` on a cons whose head fails `p`. -/
theorem npWhere_cons_neg (p : ℚ → Bool) (a : ℚ) (as : List ℚ)
    (h : p a = false) :
    npWhere p (a :: as) = (npWhere p as).map (· + 1) := by
  rw [npWhere, h]
  rfl

/-- Helper: the last element of `0 :: l.map (+1)` is the successor of the
    last element of nonempty `l` (shape of `npWhere` on a matching head). -/
theorem getLast?_zero_cons_map (l : List ℕ) (hl : l ≠ []) :
    ((0 : ℕ) :: l.map (· + 1)).getLast? = l.getLast?.map (· + 1) := by
  have h2 : (l.map (· + 1)).getLast?.isSome := by
    rw [List.getLast?_isSome]
    simpa using hl
  rw [show (0 : ℕ) :: l.map (· + 1) = [0] ++ l.map (· + 1) from rfl,
    List.getLast?_append, List.getLast?_map]
  apply Option.or_of_isSome
  rw [← List.getLast?_map]
  exact h2

/-- Helper: evaluating `wavelenSet` once the two index lookups succeed. -/
theorem wavelenSet_some (wl : List ℚ) (minW maxW : ℚ) (i j : ℕ)
    (h1 : (npWhere (fun w => decide (minW ≤ w)) wl).head? = some i)
    (h2 : (npWhere (fun w => decide (w ≤ maxW)) wl).getLast? = some j) :
    wavelenSet wl minW maxW = some ((wl.drop i).take (j + 1 - i)) := by
  unfold wavelenSet
  simp only [h1, h2, Option.bind_eq_bind, Option.bind_some]
  rfl

/-- Helper: on a strictly increasing list, taking through the last index
    that satisfies the upper bound is `takeWhile`. -/
theorem take_npWhere_getLast (maxW : ℚ) (l : List ℚ) :
    l.Pairwise (· < ·) → ∀ j : ℕ,
      (npWhere (fun v => decide (v ≤ maxW)) l).getLast? = some j →
      l.take (j + 1) = l.takeWhile (fun v => decide (v ≤ maxW)) := by
  induction l with
  | nil => intro _ j h; simp [npWhere] at h
  | cons a as ih =>
    intro hp j h
    obtain ⟨ha, hp'⟩ := List.pairwise_cons.mp hp
    by_cases hqa : a ≤ maxW
    · rw [npWhere_cons_pos _ _ _ (decide_eq_true hqa)] at h
      cases hrest : npWhere (fun v => decide (v ≤ maxW)) as with
      | nil =>
        rw [hrest] at h
        simp only [List.map_nil, List.getLast?_singleton,
          Option.some.injEq] at h
        subst h
        have htw : List.takeWhile (fun v => decide (v ≤ maxW)) as = [] := by
          cases as with
          | nil => rfl
          | cons b bs =>
            have hb : ¬ (b ≤ maxW) := by
              intro hle
              have := (npWhere_eq_nil _ _).mp hrest b (by simp)
              simp [hle] at this
            rw [List.takeWhile_cons, decide_eq_false hb]
            rfl
        rw [List.take_succ_cons, List.take_zero, List.takeWhile_cons,
          decide_eq_true hqa, htw]
        rfl
      | cons x xs =>
        rw [hrest, getLast?_zero_cons_map _ (List.cons_ne_nil x xs)] at h
        obtain ⟨j', hj', hjj⟩ := Option.map_eq_some'.mp h
        subst hjj
        rw [List.take_succ_cons, List.takeWhile_cons, decide_eq_true hqa,
          ih hp' j' (by rw [hrest]; exact hj')]
        rfl
    · have hnil : npWhere (fun v => decide (v ≤ maxW)) (a :: as) = [] := by
        rw [npWhere_eq_nil]
        intro v hv
        rcases List.mem_cons.mp hv with rfl | hv'
        · simp [hqa]
        · simp only [decide_eq_true_eq]
          intro hle
          exact hqa (le_trans (ha v hv').le hle)
      rw [hnil] at h
      simp at h

/-- Helper: on a strictly increasing list, filtering by an upper bound is
    `takeWhile`. -/
theorem filter_le_eq_takeWhile (maxW : ℚ) (l : List ℚ)
    (hp : l.Pairwise (· < ·)) :
    l.filter (fun v => decide (v ≤ maxW))
      = l.takeWhile (fun v => decide (v ≤ maxW)) := by
  induction l with
  | nil => rfl
  | cons a as ih =>
    obtain ⟨ha, hp'⟩ := List.pairwise_cons.mp hp
    by_cases hqa : a ≤ maxW
    · simp only [List.filter_cons, List.takeWhile_cons, decide_eq_true hqa,
        if_true, ih hp']
    · have hfil : List.filter (fun v => decide (v ≤ maxW)) as = [] := by
        rw [List.filter_eq_nil_iff]
        intro v hv
        simp only [decide_eq_true_eq]
        exact fun hle => hqa (le_trans (ha v hv).le hle)
      rw [List.filter_cons, List.takeWhile_cons, decide_eq_false hqa, hfil]
      rfl

/-- Helper: the window restriction of a strictly increasing grid that meets
    both window bounds is exactly the filter by the window predicate. -/
theorem wavelenSet_eq_filter (minW maxW : ℚ) (wl : List ℚ) :
    wl.Pairwise (· < ·) → (∃ v ∈ wl, minW ≤ v) → (∃ v ∈ wl, v ≤ maxW) →
    wavelenSet wl minW maxW
      = some (wl.filter
          (fun v => decide (minW ≤ v) && decide (v ≤ maxW))) := by
  induction wl with
  | nil => intro _ h1 _; simp at h1
  | cons a as ih =>
    intro hp h1 h2
    obtain ⟨ha, hp'⟩ := List.pairwise_cons.mp hp
    have hqa : a ≤ maxW := by
      obtain ⟨v, hv, hvq⟩ := h2
      rcases List.mem_cons.mp hv with rfl | hv'
      · exact hvq
      · exact le_trans (ha v hv').le hvq
    by_cases hpa : minW ≤ a
    · have hhead :
          (npWhere (fun w => decide (minW ≤ w)) (a :: as)).head?
            = some 0 := by
        rw [npWhere_cons_pos _ _ _ (decide_eq_true hpa)]
        rfl
      have hne : npWhere (fun v => decide (v ≤ maxW)) (a :: as) ≠ [] := by
        rw [Ne, npWhere_eq_nil]
        push_neg
        exact ⟨a, by simp, by simp [hqa]⟩
      obtain ⟨j, hj⟩ :=
        Option.isSome_iff_exists.mp (List.getLast?_isSome.mpr hne)
      rw [wavelenSet_some _ _ _ _ _ hhead hj, List.drop_zero, Nat.sub_zero,
        take_npWhere_getLast maxW (a :: as) hp j hj,
        ← filter_le_eq_takeWhile maxW (a :: as) hp]
      congr 1
      apply List.filter_congr
      intro v hv
      have hpv : minW ≤ v := by
        rcases List.mem_cons.mp hv with rfl | hv'
        · exact hpa
        · exact le_trans hpa (ha v hv').le
      rw [decide_eq_true hpv, Bool.true_and]
    · have h1' : ∃ v ∈ as, minW ≤ v := by
        obtain ⟨v, hv, hvp⟩ := h1
        rcases List.mem_cons.mp hv with rfl | hv'
        · exact absurd hvp hpa
        · exact ⟨v, hv', hvp⟩
      have hne1 : npWhere (fun w => decide (minW ≤ w)) as ≠ [] := by
        rw [Ne, npWhere_eq_nil]
        push_neg
        obtain ⟨v, hv, hvp⟩ := h1'
        exact ⟨v, hv, by simp [hvp]⟩
      obtain ⟨i', hi'⟩ :=
        Option.isSome_iff_exists.mp (List.head?_isSome.mpr hne1)
      have hhead :
          (npWhere (fun w => decide (minW ≤ w)) (a :: as)).head?
            = some (i' + 1) := by
        rw [npWhere_cons_neg _ _ _ (decide_eq_false hpa), List.head?_map,
          hi']
        rfl
      cases hrest : npWhere (fun v => decide (v ≤ maxW)) as with
      | nil =>
        have hgl :
            (npWhere (fun v => decide (v ≤ maxW)) (a :: as)).getLast?
              = some 0 := by
          rw [npWhere_cons_pos _ _ _ (decide_eq_true hqa), hrest]
          rfl
        rw [wavelenSet_some _ _ _ _ _ hhead hgl]
        have hftail : (a :: as).filter
            (fun v => decide (minW ≤ v) && decide (v ≤ maxW)) = [] := by
          rw [List.filter_eq_nil_iff]
          intro v hv
          rcases List.mem_cons.mp hv with rfl | hv'
          · simp [hpa]
          · have hnq := (npWhere_eq_nil _ _).mp hrest v hv'
            simp only [decide_eq_true_eq] at hnq
            simp only [Bool.and_eq_true, decide_eq_true_eq, not_and]
            exact fun _ => hnq
        rw [hftail]
        have hz : 0 + 1 - (i' + 1) = 0 := by omega
        rw [hz, List.take_zero]
      | cons x xs =>
        obtain ⟨j', hj'⟩ :=
          Option.isSome_iff_exists.mp
            (List.getLast?_isSome.mpr (List.cons_ne_nil x xs))
        have hgl :
            (npWhere (fun v => decide (v ≤ maxW)) (a :: as)).getLast?
              = some (j' + 1) := by
          rw [npWhere_cons_pos _ _ _ (decide_eq_true hqa), hrest,
            getLast?_zero_cons_map _ (List.cons_ne_nil x xs), hj']
          rfl
        have h2' : ∃ v ∈ as, v ≤ maxW := by
          by_contra hcon
          push_neg at hcon
          have : npWhere (fun v => decide (v ≤ maxW)) as = [] :=
            (npWhere_eq_nil _ _).mpr (by
              intro v hv
              simp [hcon v hv])
          rw [hrest] at this
          exact List.cons_ne_nil x xs this
        have hIH := ih hp' h1' h2'
        rw [wavelenSet_some _ _ _ _ _ hi' (by rw [hrest]; exact hj')]
          at hIH
        rw [wavelenSet_some _ _ _ _ _ hhead hgl, List.drop_succ_cons,
          Nat.succ_sub_succ, List.filter_cons, decide_eq_false hpa,
          Bool.false_and]
        exact hIH

/-- C8: for every non-empty spectrum collection whose first spectrum has a
    strictly increasing wavelength grid meeting both window bounds, the
    wavelength grid retained by `specPCA` is exactly the sub-sequence of
    that grid whose values `v` satisfy `minWavelen ≤ v ≤ maxWavelen`
    (a contiguous slice, by monotonicity), for every choice of the external
    collaborators. -/
theorem specPCA_wavelengths_eq_window (resample : Spectrum → List ℚ → List ℚ)
    (magList : Spectrum → List ℚ) (pcaFit : List (List ℚ) → PCAFitResult)
    (s0 : Spectrum) (rest : List Spectrum) (minWavelen maxWavelen : ℚ)
    (hs : s0.wavelen.Chain' (· < ·))
    (h1 : ∃ v ∈ s0.wavelen, minWavelen ≤ v)
    (h2 : ∃ v ∈ s0.wavelen, v ≤ maxWavelen) :
    (specPCA resample magList pcaFit (s0 :: rest) minWavelen
        maxWavelen).map SpecPCAState.wavelengths
      = some (s0.wavelen.filter
          (fun v => decide (minWavelen ≤ v) && decide (v ≤ maxWavelen))) := by
  have hp : s0.wavelen.Pairwise (· < ·) := List.chain'_iff_pairwise.mp hs
  have hws := wavelenSet_eq_filter minWavelen maxWavelen s0.wavelen hp h1 h2
  unfold specPCA
  simp only [List.head?_cons, Option.bind_eq_bind, Option.some_bind, hws]
  rfl

/-- The reference scenario grid: 1300 wavelength points starting at 200
    with unit spacing (as in the repository test suite). -/
def scenarioGrid : List ℚ :=
  (List.range 1300).map (fun i : ℕ => ((200 + i : ℕ) : ℚ))

set_option maxRecDepth 10000 in
/-- C8 witness: the reference scenario — a 1300-point grid starting at 200
    with unit spacing and window [250, 1300] — retains exactly the index
    range [50, 1101) of the grid. -/
theorem specPCA_wavelengths_eq_window_witness :
    scenarioGrid.Chain' (· < ·) ∧
      (specPCA (fun s _ => s.flambda) (fun _ => []) (fun xs => ⟨[], [], xs⟩)
          [⟨"sample.dat", scenarioGrid, []⟩] 250 1300).map
        SpecPCAState.wavelengths
      = some ((scenarioGrid.drop 50).take 1051) := by
  have hchain : scenarioGrid.Chain' (· < ·) := by
    rw [List.chain'_iff_pairwise]
    refine List.Pairwise.map _ (fun a b hab => ?_) (List.pairwise_lt_range 1300)
    exact Nat.cast_lt.mpr (by omega)
  have h1 : ∃ v ∈ scenarioGrid, (250 : ℚ) ≤ v :=
    ⟨((200 + 50 : ℕ) : ℚ),
      List.mem_map.mpr ⟨50, List.mem_range.mpr (by norm_num), rfl⟩,
      by norm_num⟩
  have h2 : ∃ v ∈ scenarioGrid, v ≤ (1300 : ℚ) :=
    ⟨((200 + 0 : ℕ) : ℚ),
      List.mem_map.mpr ⟨0, List.mem_range.mpr (by norm_num), rfl⟩,
      by norm_num⟩
  refine ⟨hchain, ?_⟩
  rw [specPCA_wavelengths_eq_window (fun s _ => s.flambda) (fun _ => [])
    (fun xs => ⟨[], [], xs⟩) ⟨"sample.dat", scenarioGrid, []⟩ [] 250 1300
    hchain h1 h2]
  congr 1

/-! ## pcaSED.calc_new_colors (gpspec.py lines 223-249) -/

/-- Python list indexing `l[i]`: negative indices count from the end;
    indices out of range raise IndexError, modelled as `none`. -/
def pyGet (l : List ℚ) (i : ℤ) : Option ℚ :=
  if 0 ≤ i then l[i.toNat]?
  else if (-i).toNat ≤ l.length then l[l.length - (-i).toNat]? else none

/-- The color list built for one reconstructed spectrum
    (gpspec.py line 246):
      `colors = [mags[x] - mags[x-1] for x in range(len(self.filters)-1)]`.
    Note the index pair: `x` and `x - 1`, starting at `x = 0`, so the first
    entry pairs `mags[0]` with `mags[-1]`, the LAST magnitude. -/
def calc_colors_row (mags : List ℚ) (nFilters : ℕ) : Option (List ℚ) :=
  (List.range (nFilters - 1)).mapM (fun x => do
    let a ← pyGet mags (x : ℤ)
    let b ← pyGet mags ((x : ℤ) - 1)
    pure (a - b))

/-- `pcaSED.calc_new_colors`: reconstruct the spectra with `num_comps`
    components, obtain per-filter magnitudes for each reconstructed flux
    vector from the external collaborator, and difference them as in
    `calc_colors_row`. -/
def calc_new_colors {m n w : ℕ} (M : FittedModel m n w)
    (magList : (Fin w → ℚ) → List ℚ) (nFilters : ℕ) (num_comps : ℤ) :
    Option (List (List ℚ)) := do
  let reconstructed_specs ← reconstruct_spectra M num_comps
  (List.finRange m).mapM (fun i =>
    calc_colors_row (magList (reconstructed_specs i)) nFilters)

/-- A minimal fitted model (one spectrum, one component, one wavelength)
    whose reconstruction is defined for `num_comps = 1`. -/
def exMc : FittedModel 1 1 1 := ⟨fun _ => 0, fun _ _ => 1, fun _ _ => 0⟩

/-- C2: evaluation of the code at the failing input.  With 3 filters and
    collaborator magnitudes [1, 2, 4] for the reconstructed spectrum,
    `calc_new_colors` returns `[mags[0] - mags[2], mags[1] - mags[0]]
    = [-3, 1]` — the first entry wraps around to the LAST filter — whereas
    the claim (and `specPCA`'s own color computation at gpspec.py lines
    180-201, second conjunct) gives the adjacent differences
    `[mags[0] - mags[1], mags[1] - mags[2]] = [-1, -2]`. -/
theorem calc_new_colors_wraparound :
    calc_new_colors exMc (fun _ => [1, 2, 4]) 3 1 = some [[-3, 1]] ∧
      specPCAcolors [[1, 2, 4]] = [[-1, -2]] := by
  constructor
  · show some [[(1 : ℚ) - 4, 2 - 1]] = some [[-3, 1]]
    norm_num
  · show [[(1 : ℚ) - 2, 2 - 4]] = [[-1, -2]]
    norm_num

/-! ## pcaSED.write_output (gpspec.py lines 251-279) and the persistence
    round trip

    The persisted layout has four kinds of files: `wavelengths.dat`,
    `meanSpectrum.dat`, `eigenspectra/eigenspectra_<k>.dat` and
    `components/<name>.dat`.  We model a saved file by its kind-and-key
    (`SavedPath`, whose injective rendering into the four distinct real
    path shapes is immediate) together with its numeric payload.
    `np.savetxt` writes with format `%.18e` (19 significant digits), which
    round-trips every IEEE-754 double exactly, so text serialization is
    modelled as identity on the stored numbers. -/

inductive SavedPath where
  | wavelengths : SavedPath
  | meanSpectrum : SavedPath
  | eigen : ℕ → SavedPath
  | comp : String → SavedPath
deriving DecidableEq

/-- The persisted fields of a fitted model: the retained wavelength grid
    (`spec_list[0].wavelen`), the mean spectrum, the eigenspectra in
    variance order, and one named coefficient row per spectrum
    (`zip(spec_list, projected)`). -/
structure BasisModelL where
  wavelengths : List ℚ
  mean_spec : List ℚ
  eigenspectra : List (List ℚ)
  coeffs : List (String × List ℚ)
deriving DecidableEq

/-- The `eigenspectra_<k>.dat` files, written by the
    `zip(eigenspectra, range(len(eigenspectra)))` loop. -/
def eigenFiles : List (List ℚ) → ℕ → List (SavedPath × List ℚ)
  | [], _ => []
  | e :: es, k => (SavedPath.eigen k, e) :: eigenFiles es (k + 1)

/-- `pcaSED.write_output`: writes `wavelengths.dat`, then
    `os.makedirs(outFolder/eigenspectra)` and the eigenspectra files, then
    `os.makedirs(outFolder/components)` and the coefficient files, then
    `meanSpectrum.dat`.  `os.makedirs` raises OSError when the directory
    already exists (no overwrite flag); the raise is modelled as `none`
    (the files written before the raise are not modelled).  On success the
    result lists the directories created and the files written. -/
def write_output (existingDirs : List String) (outFolder : String)
    (M : BasisModelL) : Option (List String × List (SavedPath × List ℚ)) :=
  if (outFolder ++ "/eigenspectra") ∈ existingDirs
      ∨ (outFolder ++ "/components") ∈ existingDirs then none
  else
    some ([outFolder ++ "/eigenspectra", outFolder ++ "/components"],
      (SavedPath.wavelengths, M.wavelengths)
        :: (eigenFiles M.eigenspectra 0
          ++ (M.coeffs.map (fun nc => (SavedPath.comp nc.1, nc.2))
            ++ [(SavedPath.meanSpectrum, M.mean_spec)])))

/-- Reading one saved file by path (first match). -/
def lookupPath (p : SavedPath) : List (SavedPath × List ℚ) → Option (List ℚ)
  | [] => none
  | (q, d) :: rest => if q = p then some d else lookupPath p rest

/-- The eigenspectrum payload of a saved file, when it is one. -/
def eigOf : SavedPath × List ℚ → Option (List ℚ) := fun pd =>
  match pd.1 with
  | SavedPath.eigen _ => some pd.2
  | _ => none

/-- The named coefficient payload of a saved file, when it is one. -/
def compOf : SavedPath × List ℚ → Option (String × List ℚ) := fun pd =>
  match pd.1 with
  | SavedPath.comp nm => some (nm, pd.2)
  | _ => none

/-- Modelled from the spec: a `load` routine is not part of
    `src/code/gpspec.py` (only `write_output` is).  Per spec section 4.5,
    `load(inputDirectory)` reverses `save`: it reads the wavelength grid
    and mean spectrum, the `eigenspectra_<k>.dat` files in index order
    (which is their write order), and reconstructs `coefficients` keyed by
    the per-spectrum filename stems. -/
def load_pca_output (files : List (SavedPath × List ℚ)) :
    Option BasisModelL := do
  let wl ← lookupPath SavedPath.wavelengths files
  let ms ← lookupPath SavedPath.meanSpectrum files
  let eigs := files.filterMap eigOf
  let cfs := files.filterMap compOf
  pure ⟨wl, ms, eigs, cfs⟩

/-- Helper: `lookupPath` distributes over append. -/
theorem lookupPath_append (p : SavedPath) (l1 l2 : List (SavedPath × List ℚ)) :
    lookupPath p (l1 ++ l2) = (lookupPath p l1).or (lookupPath p l2) := by
  induction l1 with
  | nil => simp [lookupPath]
  | cons a as ih =>
    obtain ⟨q, d⟩ := a
    by_cases h : q = p <;> simp [lookupPath, h, ih]

/-- Helper: the mean spectrum file is not among the eigenspectra files. -/
theorem lookupPath_mean_eigenFiles (es : List (List ℚ)) (k : ℕ) :
    lookupPath SavedPath.meanSpectrum (eigenFiles es k) = none := by
  induction es generalizing k with
  | nil => rfl
  | cons e es ih => simp [eigenFiles, lookupPath, ih]

/-- Helper: the mean spectrum file is not among the coefficient files. -/
theorem lookupPath_mean_compFiles (cs : List (String × List ℚ)) :
    lookupPath SavedPath.meanSpectrum
      (cs.map (fun nc => (SavedPath.comp nc.1, nc.2))) = none := by
  induction cs with
  | nil => rfl
  | cons c cs ih => simp [lookupPath, ih]

/-- Helper: the eigenspectra files decode, in write order, to exactly the
    eigenspectra. -/
theorem filterMap_eigOf_eigenFiles (es : List (List ℚ)) (k : ℕ) :
    (eigenFiles es k).filterMap eigOf = es := by
  induction es generalizing k with
  | nil => rfl
  | cons e es ih => simp [eigenFiles, List.filterMap_cons, eigOf, ih]

/-- Helper: the coefficient files carry no eigenspectra. -/
theorem filterMap_eigOf_compFiles (cs : List (String × List ℚ)) :
    (cs.map (fun nc => (SavedPath.comp nc.1, nc.2))).filterMap eigOf = [] := by
  induction cs with
  | nil => rfl
  | cons c cs ih => simp [List.filterMap_cons, eigOf, ih]

/-- Helper: the eigenspectra files carry no coefficients. -/
theorem filterMap_compOf_eigenFiles (es : List (List ℚ)) (k : ℕ) :
    (eigenFiles es k).filterMap compOf = [] := by
  induction es generalizing k with
  | nil => rfl
  | cons e es ih => simp [eigenFiles, List.filterMap_cons, compOf, ih]

/-- Helper: the coefficient files decode, in write order, to exactly the
    named coefficient rows. -/
theorem filterMap_compOf_compFiles (cs : List (String × List ℚ)) :
    (cs.map (fun nc => (SavedPath.comp nc.1, nc.2))).filterMap compOf
      = cs := by
  induction cs with
  | nil => rfl
  | cons c cs ih => simp [List.filterMap_cons, compOf, ih]

/-- C5: loading a saved model reproduces it exactly, field for field, with
    no precision lost (text serialization with `%.18e` is lossless for
    doubles and is modelled as exact).  The spectrum names are required to
    be distinct, since on a real file system duplicate
    `components/<name>.dat` paths would overwrite each other. -/
theorem load_write_roundtrip (M : BasisModelL) (existingDirs : List String)
    (outFolder : String)
    (h1 : (outFolder ++ "/eigenspectra") ∉ existingDirs)
    (h2 : (outFolder ++ "/components") ∉ existingDirs)
    (h3 : (M.coeffs.map Prod.fst).Nodup) :
    (write_output existingDirs outFolder M).bind
      (fun r => load_pca_output r.2) = some M := by
  unfold write_output
  rw [if_neg (by push_neg; exact ⟨h1, h2⟩)]
  show load_pca_output _ = some M
  unfold load_pca_output
  have hwl : lookupPath SavedPath.wavelengths
      ((SavedPath.wavelengths, M.wavelengths)
        :: (eigenFiles M.eigenspectra 0
          ++ (M.coeffs.map (fun nc => (SavedPath.comp nc.1, nc.2))
            ++ [(SavedPath.meanSpectrum, M.mean_spec)]))) =
      some M.wavelengths := by
    simp [lookupPath]
  have hms : lookupPath SavedPath.meanSpectrum
      ((SavedPath.wavelengths, M.wavelengths)
        :: (eigenFiles M.eigenspectra 0
          ++ (M.coeffs.map (fun nc => (SavedPath.comp nc.1, nc.2))
            ++ [(SavedPath.meanSpectrum, M.mean_spec)]))) =
      some M.mean_spec := by
    simp [lookupPath, lookupPath_append, lookupPath_mean_eigenFiles,
      lookupPath_mean_compFiles]
  simp only [hwl, hms, List.filterMap_cons, List.filterMap_append,
    filterMap_eigOf_eigenFiles, filterMap_eigOf_compFiles,
    filterMap_compOf_eigenFiles, filterMap_compOf_compFiles,
    Option.bind_eq_bind, Option.some_bind]
  simp [eigOf, compOf, lookupPath]

/-- A concrete saved model for the persistence witnesses. -/
def exBM : BasisModelL :=
  ⟨[1, 2], [3, 4], [[5, 6], [7, 8]], [("a", [9]), ("b", [10])]⟩

/-- C5 witness: round trip of a concrete model through a fresh output
    directory. -/
theorem load_write_roundtrip_witness :
    (write_output [] "out" exBM).bind (fun r => load_pca_output r.2)
      = some exBM :=
  load_write_roundtrip exBM [] "out" (by simp) (by simp)
    (by simp [exBM])

/-- C9: `write_output` raises exactly when one of the two required
    subdirectories already exists (no silent overwrite, no overwrite
    flag), and otherwise creates both `eigenspectra/` and `components/`
    under the output folder. -/
theorem write_output_subdirs (existingDirs : List String)
    (outFolder : String) (M : BasisModelL) :
    (write_output existingDirs outFolder M = none ↔
      ((outFolder ++ "/eigenspectra") ∈ existingDirs ∨
        (outFolder ++ "/components") ∈ existingDirs)) ∧
    (((outFolder ++ "/eigenspectra") ∉ existingDirs ∧
        (outFolder ++ "/components") ∉ existingDirs) →
      (write_output existingDirs outFolder M).map Prod.fst
        = some [outFolder ++ "/eigenspectra", outFolder ++ "/components"]) := by
  constructor
  · unfold write_output
    by_cases h : (outFolder ++ "/eigenspectra") ∈ existingDirs ∨
        (outFolder ++ "/components") ∈ existingDirs
    · rw [if_pos h]
      simp [h]
    · rw [if_neg h]
      simp [h]
  · intro hfresh
    unfold write_output
    rw [if_neg (by push_neg; exact hfresh)]
    rfl

/-- C9 witness: a pre-existing `out/eigenspectra` makes `write_output`
    raise, and a fresh destination gets both subdirectories created. -/
theorem write_output_subdirs_witness :
    write_output ["out" ++ "/eigenspectra"] "out" exBM = none ∧
      (write_output [] "out" exBM).map Prod.fst
        = some ["out" ++ "/eigenspectra", "out" ++ "/components"] :=
  ⟨(write_output_subdirs ["out" ++ "/eigenspectra"] "out" exBM).1.mpr
      (Or.inl (by simp)),
    (write_output_subdirs [] "out" exBM).2 (by simp)⟩

end GPSpec
